import Mathlib

/-!
Verification of the pricing retrieval-and-transform pipeline of the
aws-pricing-mcp-server repository.

The pure functions of `awslabs/aws_pricing_mcp_server/pricing_client.py`
(`_join_products_and_terms`, `_apply_filters`, `get_pricing_region`) are
embedded directly from the source.  Python dictionaries become association
lists (`List (key × value)`) preserving insertion order, with first-match
lookup mirroring dictionary key lookup; raising a `TypeError` during filter
evaluation is modelled by an `Option` result (`none` = exception).

Server-side behaviours whose implementation module is not part of the
analysed sources (the paginator, the response size guard, the free-product
check and the all-or-nothing attribute-value discovery) are modelled from
the specification; each such definition carries a doc comment saying so.
-/

set_option maxRecDepth 4096

namespace AwsPricing

/-! ## String helpers (Python `startswith`, `in`, decimal formatting) -/

/-- Boolean check that the second list of characters is an initial segment of
the first; this is the semantics of Python's `str.startswith`. -/
def startsWithAux : List Char → List Char → Bool
  | _, [] => true
  | [], _ :: _ => false
  | c :: cs, d :: ds => c == d && startsWithAux cs ds

/-- Python `s.startswith(p)` on strings. -/
def strStartsWith (s p : String) : Bool :=
  startsWithAux s.data p.data

/-- Boolean contiguous-substring check over character lists; the semantics of
Python's `needle in haystack` for strings. -/
def containsSubAux (needle : List Char) : List Char → Bool
  | [] => needle.isEmpty
  | c :: cs => startsWithAux (c :: cs) needle || containsSubAux needle cs

/-- Python `needle in haystack` on strings (case-sensitive substring test). -/
def strContains (needle haystack : String) : Bool :=
  containsSubAux needle.data haystack.data

/-- Splitting a character list at every comma; the accumulator holds the
current chunk reversed.  The split of an empty string is `[""]`, exactly as
in Python. -/
def splitCommaAux : List Char → List Char → List String
  | [], acc => [String.mk acc.reverse]
  | c :: cs, acc =>
    if c = ',' then String.mk acc.reverse :: splitCommaAux cs []
    else splitCommaAux cs (c :: acc)

/-- Python `s.split(',')`. -/
def splitComma (s : String) : List String :=
  splitCommaAux s.data []

/-- Lexicographic order on character lists by code point, the order Python
uses to compare strings. -/
def charListLe : List Char → List Char → Bool
  | [], _ => true
  | _ :: _, [] => false
  | c :: cs, d :: ds =>
    if c = d then charListLe cs ds else decide (c.toNat < d.toNat)

/-- Python `s <= t` on strings (lexicographic by code point). -/
def strLe (s t : String) : Bool :=
  charListLe s.data t.data

/-- Insert a comma after every third character of a reversed digit string; the
counter tracks how many digits were emitted since the last separator. -/
def commaRev : List Char → Nat → List Char
  | [], _ => []
  | c :: cs, k =>
    if k = 3 then ',' :: c :: commaRev cs 1
    else c :: commaRev cs (k + 1)

/-- Format a natural number with thousands separators, as Python's
format specifier with a comma does (`1000` becomes `"1,000"`). -/
def formatWithCommas (n : Nat) : String :=
  String.mk (commaRev (Nat.repr n).data.reverse 0).reverse

/-! ## Data model

`RawDocument` is the parsed Bulk API JSON (`products` and `terms` sections);
`ProductRecord` is the join output.  The term payload is an arbitrary type
`α` because the joiner and the filter engine treat it as opaque. -/

/-- Product entry of the `products` section: the joiner copies it verbatim
and the filter engine reads its `attributes` map. -/
structure ProductData where
  sku : String
  productFamily : String
  attributes : List (String × String)
deriving DecidableEq, Repr

/-- Raw parsed Bulk API document: `products` maps SKU to product data and
`terms` maps a term type to a map from SKU to an opaque term detail. -/
structure RawDocument (α : Type) where
  products : List (String × ProductData)
  terms : List (String × List (String × α))
deriving DecidableEq, Repr

/-- Per-product record produced by the join: the product data together with
the term details found for its SKU, keyed by term type. -/
structure ProductRecord (α : Type) where
  product : ProductData
  terms : List (String × α)
deriving DecidableEq, Repr

/-! ## RecordJoiner: `_join_products_and_terms` -/

/-- Inner loop of `_join_products_and_terms`: walk the `terms` section and
keep, for one SKU, every term type whose sub-map contains that SKU. -/
def joinTermsForSku {α : Type} : List (String × List (String × α)) → String → List (String × α)
  | [], _ => []
  | (termType, termSkus) :: rest, sku =>
    match termSkus.lookup sku with
    | some v => (termType, v) :: joinTermsForSku rest sku
    | none => joinTermsForSku rest sku

/-- Outer loop of `_join_products_and_terms`: one record per product entry,
in the iteration order of the `products` map. -/
def joinProductsAndTermsGo {α : Type} (termsSection : List (String × List (String × α))) :
    List (String × ProductData) → List (ProductRecord α)
  | [] => []
  | (sku, productData) :: rest =>
    ⟨productData, joinTermsForSku termsSection sku⟩ :: joinProductsAndTermsGo termsSection rest

/-- Embedding of `_join_products_and_terms` from `pricing_client.py`. -/
def joinProductsAndTerms {α : Type} (data : RawDocument α) : List (ProductRecord α) :=
  joinProductsAndTermsGo data.terms data.products

/-! ## FilterEngine: `_apply_filters` -/

/-- Value of a filter: Python allows a plain (possibly comma-joined) string
or an explicit list of strings. -/
inductive FilterValue where
  | str (s : String)
  | list (l : List String)
deriving DecidableEq, Repr

/-- A filter dictionary with keys `Field`, `Type` (optional, `EQUALS` when
absent) and `Value`.  `Type'` stands for the Python key `Type`. -/
structure PricingFilter where
  Field : String
  Type' : Option String
  Value : FilterValue
deriving DecidableEq, Repr

/-- Value set of an `ANY_OF`/`NONE_OF` filter: Python splits a string on
commas and uses a list directly. -/
def valueSet : FilterValue → List String
  | .str s => splitComma s
  | .list l => l

/-- Branch dispatch of the per-filter loop body of `_apply_filters`, applied
to the already-read filter type and attribute value.  `none` models the
`TypeError` Python raises when a `CONTAINS` filter carries a list value
(`value not in attr_value` with a list left operand); every other case
returns the Boolean match outcome, and an unrecognized filter type leaves
the record matching. -/
def matchFilterVal (filterType attrValue : String) (value : FilterValue) : Option Bool :=
  if filterType = "EQUALS" then
    match value with
    | .str s => some (decide (attrValue = s))
    | .list _ => some false
  else if filterType = "ANY_OF" then
    some (decide (attrValue ∈ valueSet value))
  else if filterType = "CONTAINS" then
    match value with
    | .str s => some (strContains s attrValue)
    | .list _ => none
  else if filterType = "NONE_OF" then
    some (!decide (attrValue ∈ valueSet value))
  else
    some true

/-- Evaluation of one filter against a record's attribute map, from the body
of the per-filter loop of `_apply_filters`: the filter type defaults to
`EQUALS` when absent and the attribute is read with default `""` when
missing. -/
def matchFilter (attrs : List (String × String)) (f : PricingFilter) : Option Bool :=
  matchFilterVal (f.Type'.getD "EQUALS") ((attrs.lookup f.Field).getD "") f.Value

/-- Boolean view of `matchFilter` (meaningful for filters whose evaluation
cannot raise). -/
def matchFilterB (attrs : List (String × String)) (f : PricingFilter) : Bool :=
  (matchFilter attrs f).getD false

/-- A filter whose evaluation never raises: every combination except a
`CONTAINS` filter carrying a list value. -/
def filterWF (f : PricingFilter) : Bool :=
  match f.Value with
  | .str _ => true
  | .list _ => decide (f.Type'.getD "EQUALS" ≠ "CONTAINS")

/-- Per-record inner loop of `_apply_filters`: conjunction over the filter
list, stopping at the first failing filter (`break`), propagating a raised
`TypeError` as `none`. -/
def recordMatches (attrs : List (String × String)) : List PricingFilter → Option Bool
  | [] => some true
  | f :: rest =>
    match matchFilter attrs f with
    | none => none
    | some false => some false
    | some true => recordMatches attrs rest

/-- Outer loop of `_apply_filters`: keep the records whose attribute map
matches every filter, in order. -/
def applyFiltersGo {α : Type} (filters : List PricingFilter) :
    List (ProductRecord α) → Option (List (ProductRecord α))
  | [] => some []
  | p :: rest =>
    match recordMatches p.product.attributes filters with
    | none => none
    | some true => (applyFiltersGo filters rest).map (p :: ·)
    | some false => applyFiltersGo filters rest

/-- Embedding of `_apply_filters` from `pricing_client.py`; the empty filter
list returns the input list unchanged. -/
def applyFilters {α : Type} (products : List (ProductRecord α))
    (filters : List PricingFilter) : Option (List (ProductRecord α)) :=
  if filters.isEmpty then some products else applyFiltersGo filters products

/-! ## Region mapping: `get_pricing_region` -/

/-- Embedding of `get_pricing_region` from `pricing_client.py`.  The
configured default region (`consts.AWS_REGION`) is passed explicitly; a
`none` or empty requested region falls back to it, matching Python's
truthiness test `if not requested_region`. -/
def get_pricing_region (awsRegion : String) (requestedRegion : Option String) : String :=
  let r :=
    match requestedRegion with
    | none => awsRegion
    | some s => if s = "" then awsRegion else s
  if strStartsWith r "cn-" then "cn-northwest-1"
  else if strStartsWith r "eu-" || strStartsWith r "me-" || strStartsWith r "af-" then
    "eu-central-1"
  else if strStartsWith r "ap-" then "ap-south-1"
  else if strStartsWith r "eusc-" then "eusc-de-east-1"
  else r

/-! ## Paginator (modelled from the spec) -/

/-- Modelled from the spec: the server's offset paginator (its module is not
among the analysed sources).  The opaque page token is taken here already
decoded to a natural-number offset, absence meaning offset 0.  It slices
`records[offset : offset + maxResults]` and emits the stringified new offset
as the next token exactly when more records remain. -/
def paginate {α : Type} (records : List α) (maxResults : Nat) (nextToken : Option Nat) :
    List α × Option String :=
  let offset := nextToken.getD 0
  let page := (records.drop offset).take maxResults
  if offset + maxResults < records.length then
    (page, some (toString (offset + maxResults)))
  else
    (page, none)

/-! ## SizeGuard (modelled from the spec) -/

/-- Outcome of the response size guard: accept, or reject with sample
records, a message and a suggestion. -/
inductive SizeGuardResult (α : Type) where
  | accept
  | reject (sampleRecords : List α) (message : String) (suggestion : String)
deriving DecidableEq, Repr

/-- Modelled from the spec: the suggestion text of a `result_too_large`
rejection, describing the response-shrinking levers. -/
def sizeSuggestion : String :=
  "Add more specific filters, request fewer results via max_results, or use narrower output_options to significantly reduce response size"

/-- Modelled from the spec: the rejection message stating the actual size and
the limit, both with thousands separators. -/
def sizeMessage (actual : Nat) (budget : Int) : String :=
  "Response contains " ++ formatWithCommas actual ++
    " characters, exceeding the limit of " ++ formatWithCommas budget.toNat ++ " characters"

/-- Modelled from the spec: the server's response size guard (its module is
not among the analysed sources).  A budget of `-1` means unlimited and always
accepts; otherwise the serialized page (serialization passed in as a
function) is measured and compared to the budget, and a rejection carries the
first 3 records of the page as samples. -/
def checkResultSize {α : Type} (serialize : List α → String) (page : List α)
    (maxAllowedCharacters : Int) : SizeGuardResult α :=
  if maxAllowedCharacters = -1 then .accept
  else if ((serialize page).length : Int) > maxAllowedCharacters then
    .reject (page.take 3) (sizeMessage (serialize page).length maxAllowedCharacters)
      sizeSuggestion
  else .accept

/-! ## Pipeline core (modelled from the spec) -/

/-- Result envelope of the pipeline core: a success page with an optional
next token, or an error with a type, a message and sample records. -/
inductive PricingOutcome (α : Type) where
  | success (data : List (ProductRecord α)) (nextToken : Option String)
  | error (errorType : String) (message : String) (sampleRecords : List (ProductRecord α))
deriving DecidableEq, Repr

/-- Modelled from the spec: the pure post-fetch core of the server's
`get_pricing` pipeline — join, filter (an exception during the transform
becomes `data_processing_error`), empty-result check, paginate, size check.
Free-product annotation and the static alternatives lookup are omitted: they
decorate the response and affect neither the page contents nor the size
decision as specified here. -/
def getPricingCore {α : Type} (serialize : List (ProductRecord α) → String)
    (doc : RawDocument α) (filters : List PricingFilter) (maxResults : Nat)
    (token : Option Nat) (maxAllowedCharacters : Int) : PricingOutcome α :=
  match applyFilters (joinProductsAndTerms doc) filters with
  | none => .error "data_processing_error" "Failed to process pricing data" []
  | some [] => .error "empty_results" "The specified filters returned no results" []
  | some records =>
    let page := (paginate records maxResults token).1
    let next := (paginate records maxResults token).2
    match checkResultSize serialize page maxAllowedCharacters with
    | .accept => .success page next
    | .reject sample msg _ => .error "result_too_large" msg sample

/-! ## Free-product detection (modelled from the spec) -/

/-- Price dimension: its `pricePerUnit` maps a currency code to a price
string. -/
structure PriceDimension where
  pricePerUnit : List (String × String)
deriving DecidableEq, Repr

/-- Term detail as inspected by the free-product check: a map from dimension
code to price dimension. -/
structure TermData where
  priceDimensions : List (String × PriceDimension)
deriving DecidableEq, Repr

/-- Splitting a character list at every `'.'`, the accumulator holding the
current chunk reversed; mirrors Python's `s.split('.')`. -/
def splitDotAux : List Char → List Char → List (List Char)
  | [], acc => [acc.reverse]
  | c :: cs, acc =>
    if c = '.' then acc.reverse :: splitDotAux cs []
    else splitDotAux cs (c :: acc)

/-- Digits-only numeral value of a character list; `none` as soon as a
non-digit character appears. -/
def digitsToNat? (cs : List Char) : Option Nat :=
  cs.foldl
    (fun acc c =>
      match acc with
      | none => none
      | some n => if c.isDigit then some (10 * n + (c.toNat - 48)) else none)
    (some 0)

/-- Exact decimal number: the numeric value is `mantissa / 10 ^ scale`. -/
structure Decimal where
  mantissa : Int
  scale : Nat
deriving DecidableEq, Repr

/-- Rational value of a decimal. -/
def Decimal.toRat (d : Decimal) : Rat :=
  (d.mantissa : Rat) / ((10 ^ d.scale : Nat) : Rat)

/-- Modelled from the spec: numeric parsing of a price string as a plain
decimal number — optional sign, digit characters with at most one decimal
point, at least one digit.  Unparsable strings (such as `"N/A"`) yield
`none`, which the free-product check treats as non-free. -/
def parsePrice (s : String) : Option Decimal :=
  let signRest : Int × List Char :=
    match s.data with
    | '-' :: r => (-1, r)
    | '+' :: r => (1, r)
    | r => (1, r)
  match splitDotAux signRest.2 [] with
  | [ip] =>
    if ip.isEmpty then none
    else (digitsToNat? ip).map (fun n => ⟨signRest.1 * n, 0⟩)
  | [ip, fp] =>
    if ip.isEmpty && fp.isEmpty then none
    else
      match digitsToNat? ip, digitsToNat? fp with
      | some a, some b => some ⟨signRest.1 * (a * 10 ^ fp.length + b), fp.length⟩
      | _, _ => none
  | _ => none

/-- A price string that parses to the numeric value zero; fails closed on
unparsable strings. -/
def priceIsZero (price : String) : Bool :=
  match parsePrice price with
  | some d => decide (d.mantissa = 0)
  | none => false

/-- All currency-price entries of the `OnDemand` term of a record's term map,
across every term code and price dimension. -/
def onDemandPrices (terms : List (String × List (String × TermData))) :
    List (String × String) :=
  match terms.lookup "OnDemand" with
  | none => []
  | some onDemand =>
    onDemand.flatMap (fun t => t.2.priceDimensions.flatMap (fun d => d.2.pricePerUnit))

/-- Modelled from the spec: the server's `_is_free_product` check (its module
is not among the analysed sources).  A product is free exactly when every
currency entry of every price dimension of every `OnDemand` term parses to a
price of exactly zero. -/
def _is_free_product (terms : List (String × List (String × TermData))) : Bool :=
  match terms.lookup "OnDemand" with
  | none => true
  | some onDemand =>
    onDemand.all fun t =>
      t.2.priceDimensions.all fun d =>
        d.2.pricePerUnit.all fun cp => priceIsZero cp.2

/-! ## Attribute-value discovery (modelled from the spec) -/

/-- Insert a string into a list so that an ascending list stays ascending. -/
def insertSorted (s : String) : List String → List String
  | [] => [s]
  | t :: ts => if strLe s t then s :: t :: ts else t :: insertSorted s ts

/-- Ascending insertion sort on strings. -/
def sortStrings (l : List String) : List String :=
  l.foldr insertSorted []

/-- Modelled from the spec: the distinct observed values of one attribute
across all records (each record contributing the value its attribute map
holds for that name, if any), deduplicated and sorted ascending. -/
def collectAttributeValues (records : List (List (String × String))) (name : String) :
    List String :=
  sortStrings (records.filterMap (fun attrs => attrs.lookup name)).eraseDups

/-- Modelled from the spec: the values of one attribute after applying its
optional value filter.  A regex is abstracted as a Boolean predicate on
strings; a filter keyed by a non-requested attribute name is simply never
looked up. -/
def filteredAttributeValues (records : List (List (String × String)))
    (valueFilters : List (String × (String → Bool))) (name : String) : List String :=
  match valueFilters.lookup name with
  | some p => (collectAttributeValues records name).filter p
  | none => collectAttributeValues records name

/-- Result of attribute-value discovery: a map from attribute name to its
value list, or an error with its type, the failed attribute and the full
requested attribute list. -/
inductive AttrValuesResult where
  | ok (values : List (String × List String))
  | error (errorType : String) (failedAttribute : String) (requestedAttributes : List String)
deriving DecidableEq, Repr

/-- Modelled from the spec: the per-attribute loop of the all-or-nothing
attribute-value discovery.  Attributes are processed in request order; the
first one whose filtered value list is empty fails the whole call with
`no_attribute_values_found`, naming it and echoing the full requested
list. -/
def buildAttributeValues (records : List (List (String × String)))
    (valueFilters : List (String × (String → Bool))) (allNames : List String) :
    List String → AttrValuesResult
  | [] => .ok []
  | n :: rest =>
    if (filteredAttributeValues records valueFilters n).isEmpty then
      .error "no_attribute_values_found" n allNames
    else
      match buildAttributeValues records valueFilters allNames rest with
      | .ok m => .ok ((n, filteredAttributeValues records valueFilters n) :: m)
      | e => e

/-- Modelled from the spec: the pure core of the server's
`get_pricing_attribute_values` (its module is not among the analysed
sources), applied to the attribute maps of the fetched records.  An empty
requested list fails immediately with `empty_attribute_list`. -/
def get_pricing_attribute_values (records : List (List (String × String)))
    (valueFilters : List (String × (String → Bool))) (attributeNames : List String) :
    AttrValuesResult :=
  if attributeNames.isEmpty then .error "empty_attribute_list" "" attributeNames
  else buildAttributeValues records valueFilters attributeNames attributeNames

/-! ## Theorems -/

/-! ### C1: the join produces one record per product, with exactly the
matching term entries -/

theorem joinProductsAndTermsGo_length {α : Type} (ts : List (String × List (String × α)))
    (ps : List (String × ProductData)) :
    (joinProductsAndTermsGo ts ps).length = ps.length := by
  induction ps with
  | nil => rfl
  | cons p rest ih =>
    obtain ⟨sku, pd⟩ := p
    simp [joinProductsAndTermsGo, ih]

theorem joinProductsAndTermsGo_getElem? {α : Type} (ts : List (String × List (String × α)))
    (ps : List (String × ProductData)) (i : Nat) :
    (joinProductsAndTermsGo ts ps)[i]? =
      (ps[i]?).map (fun p => ⟨p.2, joinTermsForSku ts p.1⟩) := by
  induction ps generalizing i with
  | nil => simp [joinProductsAndTermsGo]
  | cons p rest ih =>
    obtain ⟨sku, pd⟩ := p
    cases i with
    | zero => simp [joinProductsAndTermsGo]
    | succ n => simp [joinProductsAndTermsGo, ih]

theorem joinTermsForSku_mem {α : Type} (ts : List (String × List (String × α)))
    (sku termType : String) (v : α) :
    (termType, v) ∈ joinTermsForSku ts sku ↔
      ∃ termSkus, (termType, termSkus) ∈ ts ∧ termSkus.lookup sku = some v := by
  induction ts with
  | nil => simp [joinTermsForSku]
  | cons p rest ih =>
    obtain ⟨tt, sub⟩ := p
    cases h : sub.lookup sku with
    | none =>
      simp only [joinTermsForSku, h]
      rw [ih]
      constructor
      · rintro ⟨ts', hts', hl⟩
        exact ⟨ts', List.mem_cons_of_mem _ hts', hl⟩
      · rintro ⟨ts', hts', hl⟩
        rcases List.mem_cons.mp hts' with heq | hmem
        · obtain ⟨h1, h2⟩ := Prod.mk.injEq .. ▸ heq
          rw [h2] at hl
          rw [h] at hl
          exact absurd hl (by simp)
        · exact ⟨ts', hmem, hl⟩
    | some w =>
      simp only [joinTermsForSku, h, List.mem_cons]
      constructor
      · rintro (heq | hmem)
        · obtain ⟨h1, h2⟩ := Prod.mk.injEq .. ▸ heq
          subst h1; subst h2
          exact ⟨sub, Or.inl rfl, h⟩
        · obtain ⟨ts', hts', hl⟩ := ih.mp hmem
          exact ⟨ts', Or.inr hts', hl⟩
      · rintro ⟨ts', heq | hmem, hl⟩
        · obtain ⟨h1, h2⟩ := Prod.mk.injEq .. ▸ heq
          subst h1; subst h2
          rw [h] at hl
          obtain rfl : w = v := by simpa using hl
          exact Or.inl rfl
        · exact Or.inr (ih.mpr ⟨ts', hmem, hl⟩)

theorem joinTermsForSku_eq_nil {α : Type} (ts : List (String × List (String × α)))
    (sku : String) (h : ts.all (fun p => (p.2.lookup sku).isNone) = true) :
    joinTermsForSku ts sku = [] := by
  induction ts with
  | nil => rfl
  | cons p rest ih =>
    obtain ⟨tt, sub⟩ := p
    rw [List.all_cons, Bool.and_eq_true] at h
    have h1 : sub.lookup sku = none := Option.isNone_iff_eq_none.mp h.1
    simp only [joinTermsForSku, h1]
    exact ih h.2

/-- **C1.** For every raw document, `_join_products_and_terms` returns
exactly one record per entry of the `products` map, in the products map's
iteration order, each carrying that entry's product data; a record's term
map contains exactly those term-type keys whose sub-map contains the
record's SKU, with the corresponding value copied; a SKU contained in no
term-type's sub-map yields an empty term map; and (the length equation) a
SKU appearing only under `terms` yields no record. -/
theorem joinProductsAndTerms_spec {α : Type} (doc : RawDocument α) :
    (joinProductsAndTerms doc).length = doc.products.length ∧
    (∀ i : Nat, (joinProductsAndTerms doc)[i]? =
        (doc.products[i]?).map (fun p => ⟨p.2, joinTermsForSku doc.terms p.1⟩)) ∧
    (∀ (sku termType : String) (v : α),
        (termType, v) ∈ joinTermsForSku doc.terms sku ↔
          ∃ termSkus, (termType, termSkus) ∈ doc.terms ∧ termSkus.lookup sku = some v) ∧
    (∀ sku : String, doc.terms.all (fun p => (p.2.lookup sku).isNone) = true →
        joinTermsForSku doc.terms sku = []) :=
  ⟨joinProductsAndTermsGo_length doc.terms doc.products,
   fun i => joinProductsAndTermsGo_getElem? doc.terms doc.products i,
   fun sku termType v => joinTermsForSku_mem doc.terms sku termType v,
   fun sku h => joinTermsForSku_eq_nil doc.terms sku h⟩

/-- Concrete instantiation of the C1 theorem: a document with one product
whose SKU appears in no term sub-map yields a single record with an empty
term map. -/
theorem joinProductsAndTerms_spec_witness :
    joinTermsForSku (α := Nat) [("OnDemand", [("SKU2", 5)])] "SKU1" = [] ∧
    (joinProductsAndTerms
        (⟨[("SKU1", ⟨"SKU1", "F", []⟩)], [("OnDemand", [("SKU2", 5)])]⟩ : RawDocument Nat)).length
      = 1 :=
  ⟨(joinProductsAndTerms_spec
      (⟨[("SKU1", ⟨"SKU1", "F", []⟩)], [("OnDemand", [("SKU2", 5)])]⟩ : RawDocument Nat)).2.2.2
      "SKU1" (by decide),
   ((joinProductsAndTerms_spec
      (⟨[("SKU1", ⟨"SKU1", "F", []⟩)], [("OnDemand", [("SKU2", 5)])]⟩ : RawDocument Nat)).1).trans
      (by decide)⟩

/-! ### C2: `_apply_filters` keeps exactly the records matching every
filter, in order, with short-circuit per record -/

theorem matchFilterVal_isSome (filterType attrValue : String) (value : FilterValue)
    (h : filterType ≠ "CONTAINS" ∨ ∃ s, value = .str s) :
    (matchFilterVal filterType attrValue value).isSome = true := by
  unfold matchFilterVal
  by_cases h1 : filterType = "EQUALS"
  · simp only [h1, if_pos rfl]
    cases value <;> simp
  · rw [if_neg h1]
    by_cases h2 : filterType = "ANY_OF"
    · rw [if_pos h2]; rfl
    · rw [if_neg h2]
      by_cases h3 : filterType = "CONTAINS"
      · rw [if_pos h3]
        rcases h with hy | ⟨s, rfl⟩
        · exact absurd h3 hy
        · rfl
      · rw [if_neg h3]
        by_cases h4 : filterType = "NONE_OF"
        · rw [if_pos h4]; rfl
        · rw [if_neg h4]; rfl

theorem matchFilter_eq_some (attrs : List (String × String)) (f : PricingFilter)
    (hwf : filterWF f = true) :
    matchFilter attrs f = some (matchFilterB attrs f) := by
  have hs : (matchFilter attrs f).isSome = true := by
    unfold matchFilter
    apply matchFilterVal_isSome
    unfold filterWF at hwf
    cases hv : f.Value with
    | str s => exact Or.inr ⟨s, rfl⟩
    | list l => rw [hv] at hwf; exact Or.inl (of_decide_eq_true hwf)
  unfold matchFilterB
  cases hm : matchFilter attrs f with
  | none => rw [hm] at hs; exact absurd hs (by simp)
  | some b => rfl

theorem recordMatches_eq_all (attrs : List (String × String)) (filters : List PricingFilter)
    (hwf : ∀ f ∈ filters, filterWF f = true) :
    recordMatches attrs filters = some (filters.all (fun f => matchFilterB attrs f)) := by
  induction filters with
  | nil => rfl
  | cons f rest ih =>
    have h1 := matchFilter_eq_some attrs f (hwf f (List.mem_cons_self ..))
    have ih' := ih (fun g hg => hwf g (List.mem_cons_of_mem _ hg))
    simp only [recordMatches, h1, List.all_cons]
    cases hb : matchFilterB attrs f
    · simp
    · simpa using ih'

theorem applyFiltersGo_eq_filter {α : Type} (filters : List PricingFilter)
    (products : List (ProductRecord α)) (hwf : ∀ f ∈ filters, filterWF f = true) :
    applyFiltersGo filters products =
      some (products.filter
        (fun p => filters.all (fun f => matchFilterB p.product.attributes f))) := by
  induction products with
  | nil => rfl
  | cons p rest ih =>
    have h1 := recordMatches_eq_all p.product.attributes filters hwf
    simp only [applyFiltersGo, h1, List.filter_cons]
    cases hb : filters.all (fun f => matchFilterB p.product.attributes f)
    · simpa using ih
    · simpa using ih

/-- **C2.** For every record list and filter list of raise-free filters,
`_apply_filters` returns exactly the records, in their original relative
order, for which every filter matches (AND semantics); the empty filter
list is the identity; and per record the filters are evaluated left to
right, a failing filter deciding the record regardless of the filters
after it (short-circuit). -/
theorem applyFilters_spec {α : Type} (products : List (ProductRecord α))
    (filters : List PricingFilter) (hwf : ∀ f ∈ filters, filterWF f = true) :
    applyFilters products [] = some products ∧
    applyFilters products filters =
      some (products.filter
        (fun p => filters.all (fun f => matchFilterB p.product.attributes f))) ∧
    (∀ (attrs : List (String × String)) (f : PricingFilter) (rest : List PricingFilter),
        matchFilter attrs f = some false → recordMatches attrs (f :: rest) = some false) := by
  refine ⟨rfl, ?_, ?_⟩
  · cases hf : filters with
    | nil => simp [applyFilters]
    | cons g gs =>
      rw [hf] at hwf
      simpa [applyFilters] using applyFiltersGo_eq_filter (g :: gs) products hwf
  · intro attrs f rest h
    simp [recordMatches, h]

/-- Concrete instantiation of the C2 theorem: an `EQUALS` filter keeps
exactly the matching record. -/
theorem applyFilters_spec_witness :
    applyFilters
        [(⟨⟨"SKU1", "F", [("instanceType", "t3.medium")]⟩, []⟩ : ProductRecord Nat),
         ⟨⟨"SKU2", "F", [("instanceType", "m5.large")]⟩, []⟩]
        [⟨"instanceType", some "EQUALS", .str "t3.medium"⟩] =
      some [⟨⟨"SKU1", "F", [("instanceType", "t3.medium")]⟩, []⟩] :=
  ((applyFilters_spec
      [(⟨⟨"SKU1", "F", [("instanceType", "t3.medium")]⟩, []⟩ : ProductRecord Nat),
       ⟨⟨"SKU2", "F", [("instanceType", "m5.large")]⟩, []⟩]
      [⟨"instanceType", some "EQUALS", .str "t3.medium"⟩] (by decide)).2.1).trans (by decide)

/-! ### C7: comma-joined strings versus explicit value collections, and
`NONE_OF` as the complement of `ANY_OF` -/

/-- **C7.** For every attribute map, evaluating an `ANY_OF` or `NONE_OF`
filter with a comma-joined string value gives the same decision as
evaluating it with the explicit collection obtained by splitting the string
on commas; and on the same value collection a record passes `NONE_OF`
exactly when it fails `ANY_OF`. -/
theorem anyOf_noneOf_spec (attrs : List (String × String)) (field s : String)
    (v : FilterValue) :
    matchFilter attrs ⟨field, some "ANY_OF", .str s⟩ =
      matchFilter attrs ⟨field, some "ANY_OF", .list (splitComma s)⟩ ∧
    matchFilter attrs ⟨field, some "NONE_OF", .str s⟩ =
      matchFilter attrs ⟨field, some "NONE_OF", .list (splitComma s)⟩ ∧
    matchFilter attrs ⟨field, some "NONE_OF", v⟩ =
      some (!matchFilterB attrs ⟨field, some "ANY_OF", v⟩) :=
  ⟨rfl, rfl, rfl⟩

/-! ### C8: a missing attribute reads as the empty string -/

/-- **C8.** A filter whose `Field` is absent from the record's attribute map
is evaluated with the attribute read as the empty string, identically to an
attribute map holding `""` explicitly (so no error arises from the missing
key); such a record matches an `EQUALS` filter exactly when the filter value
is the empty string, and a string-valued `CONTAINS` filter is evaluated as
the case-sensitive substring test against the empty string. -/
theorem matchFilter_missing_attribute (attrs : List (String × String)) (f : PricingFilter)
    (hmiss : attrs.lookup f.Field = none) :
    matchFilter attrs f = matchFilter [] f ∧
    matchFilter attrs f = matchFilter [(f.Field, "")] f ∧
    (f.Type'.getD "EQUALS" = "EQUALS" →
        (matchFilter attrs f = some true ↔ f.Value = .str "")) ∧
    (∀ s : String, f.Type'.getD "EQUALS" = "CONTAINS" → f.Value = .str s →
        matchFilter attrs f = some (strContains s "")) := by
  have hval : matchFilter attrs f = matchFilterVal (f.Type'.getD "EQUALS") "" f.Value := by
    unfold matchFilter
    rw [hmiss]
    rfl
  have hsingle : (([(f.Field, "")] : List (String × String)).lookup f.Field) = some "" := by
    simp [List.lookup]
  refine ⟨?_, ?_, ?_, ?_⟩
  · rw [hval]; rfl
  · rw [hval]
    unfold matchFilter
    rw [hsingle]
    rfl
  · intro ht
    rw [hval, ht]
    unfold matchFilterVal
    rw [if_pos rfl]
    cases f.Value with
    | str s => simp [eq_comm]
    | list l => simp
  · intro s ht hv
    rw [hval, ht, hv]
    unfold matchFilterVal
    rw [if_neg (by decide), if_neg (by decide), if_pos rfl]

/-- Concrete instantiation of the C8 theorem: a record without the filter's
field matches an `EQUALS` filter whose value is the empty string. -/
theorem matchFilter_missing_attribute_witness :
    matchFilter [("instanceType", "t3.medium")] ⟨"nonexistent", none, .str ""⟩ = some true :=
  ((matchFilter_missing_attribute [("instanceType", "t3.medium")]
      ⟨"nonexistent", none, .str ""⟩ (by decide)).2.2.1 rfl).mpr rfl

/-! ### C9: unrecognized filter types never exclude a record -/

theorem recordMatches_all_true (attrs : List (String × String)) :
    ∀ filters : List PricingFilter,
      (∀ f ∈ filters, matchFilter attrs f = some true) →
      recordMatches attrs filters = some true
  | [], _ => rfl
  | f :: rest, h => by
    simp only [recordMatches, h f (List.mem_cons_self ..)]
    exact recordMatches_all_true attrs rest (fun g hg => h g (List.mem_cons_of_mem _ hg))

theorem applyFiltersGo_all_match {α : Type} (filters : List PricingFilter)
    (products : List (ProductRecord α))
    (h : ∀ attrs : List (String × String), recordMatches attrs filters = some true) :
    applyFiltersGo filters products = some products := by
  induction products with
  | nil => rfl
  | cons p rest ih =>
    simp only [applyFiltersGo, h p.product.attributes]
    simp [ih]

/-- **C9.** A filter whose type string is none of `EQUALS`, `ANY_OF`,
`CONTAINS`, `NONE_OF` matches every record, so a filter list containing only
unrecognized types returns the input record list unchanged rather than
failing. -/
theorem unknownFilterType_spec {α : Type} (products : List (ProductRecord α))
    (filters : List PricingFilter)
    (h : ∀ f ∈ filters,
        f.Type'.getD "EQUALS" ∉ (["EQUALS", "ANY_OF", "CONTAINS", "NONE_OF"] : List String)) :
    applyFilters products filters = some products ∧
    (∀ (attrs : List (String × String)) (f : PricingFilter),
        f.Type'.getD "EQUALS" ∉ (["EQUALS", "ANY_OF", "CONTAINS", "NONE_OF"] : List String) →
        matchFilter attrs f = some true) := by
  have hone : ∀ (attrs : List (String × String)) (f : PricingFilter),
      f.Type'.getD "EQUALS" ∉ (["EQUALS", "ANY_OF", "CONTAINS", "NONE_OF"] : List String) →
      matchFilter attrs f = some true := by
    intro attrs f hf
    simp only [List.mem_cons, List.not_mem_nil, or_false, not_or] at hf
    unfold matchFilter matchFilterVal
    rw [if_neg hf.1, if_neg hf.2.1, if_neg hf.2.2.1, if_neg hf.2.2.2]
  refine ⟨?_, hone⟩
  cases hfs : filters with
  | nil => simp [applyFilters]
  | cons g gs =>
    rw [hfs] at h
    have : applyFiltersGo (g :: gs) products = some products :=
      applyFiltersGo_all_match (g :: gs) products
        (fun attrs => recordMatches_all_true attrs (g :: gs) (fun f hf => hone attrs f (h f hf)))
    simpa [applyFilters] using this

/-- Concrete instantiation of the C9 theorem: a single filter of the
unrecognized type `BOGUS` keeps every record. -/
theorem unknownFilterType_spec_witness :
    applyFilters [(⟨⟨"SKU1", "F", [("a", "b")]⟩, []⟩ : ProductRecord Nat)]
        [⟨"a", some "BOGUS", .str "b"⟩] =
      some [⟨⟨"SKU1", "F", [("a", "b")]⟩, []⟩] :=
  (unknownFilterType_spec [(⟨⟨"SKU1", "F", [("a", "b")]⟩, []⟩ : ProductRecord Nat)]
      [⟨"a", some "BOGUS", .str "b"⟩] (by decide)).1

/-! ### C10: region mapping by region-code initial segment -/

theorem startsWithAux_append (l p : List Char) (h : startsWithAux l p = true) :
    ∃ rest, l = p ++ rest := by
  induction p generalizing l with
  | nil => exact ⟨l, rfl⟩
  | cons d ds ih =>
    cases l with
    | nil => exact absurd h (by simp [startsWithAux])
    | cons c cs =>
      simp only [startsWithAux, Bool.and_eq_true, beq_iff_eq] at h
      obtain ⟨rest, hrest⟩ := ih cs h.2
      exact ⟨rest, by rw [h.1, hrest]; rfl⟩

/-- **C10.** `get_pricing_region` maps a requested region by its initial
segment: `cn-` regions to `cn-northwest-1`; `eu-`, `me-` and `af-` regions
to `eu-central-1`; `ap-` regions to `ap-south-1`; `eusc-` regions to
`eusc-de-east-1`; any other region string is returned unchanged; and a
`none` or empty requested region is replaced by the configured default
region, which is then mapped the same way. -/
theorem get_pricing_region_spec (aws r : String) (hr : r ≠ "") :
    (strStartsWith r "cn-" = true → get_pricing_region aws (some r) = "cn-northwest-1") ∧
    ((strStartsWith r "eu-" || strStartsWith r "me-" || strStartsWith r "af-") = true →
        get_pricing_region aws (some r) = "eu-central-1") ∧
    (strStartsWith r "ap-" = true → get_pricing_region aws (some r) = "ap-south-1") ∧
    (strStartsWith r "eusc-" = true → get_pricing_region aws (some r) = "eusc-de-east-1") ∧
    ((strStartsWith r "cn-" || strStartsWith r "eu-" || strStartsWith r "me-" ||
        strStartsWith r "af-" || strStartsWith r "ap-" || strStartsWith r "eusc-") = false →
        get_pricing_region aws (some r) = r) ∧
    get_pricing_region aws none = get_pricing_region aws (some aws) ∧
    get_pricing_region aws (some "") = get_pricing_region aws none := by
  refine ⟨?_, ?_, ?_, ?_, ?_, ?_, ?_⟩
  · intro h
    simp [get_pricing_region, hr, h]
  · intro h
    simp only [Bool.or_eq_true] at h
    rcases h with (heu | hme) | haf
    · obtain ⟨rest, hdata⟩ := startsWithAux_append r.data "eu-".data heu
      have hcn : strStartsWith r "cn-" = false := by
        unfold strStartsWith; rw [hdata]; rfl
      simp [get_pricing_region, hr, hcn, heu]
    · obtain ⟨rest, hdata⟩ := startsWithAux_append r.data "me-".data hme
      have hcn : strStartsWith r "cn-" = false := by
        unfold strStartsWith; rw [hdata]; rfl
      simp [get_pricing_region, hr, hcn, hme]
    · obtain ⟨rest, hdata⟩ := startsWithAux_append r.data "af-".data haf
      have hcn : strStartsWith r "cn-" = false := by
        unfold strStartsWith; rw [hdata]; rfl
      simp [get_pricing_region, hr, hcn, haf]
  · intro h
    obtain ⟨rest, hdata⟩ := startsWithAux_append r.data "ap-".data h
    have hcn : strStartsWith r "cn-" = false := by
      unfold strStartsWith; rw [hdata]; rfl
    have heu : strStartsWith r "eu-" = false := by
      unfold strStartsWith; rw [hdata]; rfl
    have hme : strStartsWith r "me-" = false := by
      unfold strStartsWith; rw [hdata]; rfl
    have haf : strStartsWith r "af-" = false := by
      unfold strStartsWith; rw [hdata]; rfl
    simp [get_pricing_region, hr, hcn, heu, hme, haf, h]
  · intro h
    obtain ⟨rest, hdata⟩ := startsWithAux_append r.data "eusc-".data h
    have hcn : strStartsWith r "cn-" = false := by
      unfold strStartsWith; rw [hdata]; rfl
    have heu : strStartsWith r "eu-" = false := by
      unfold strStartsWith; rw [hdata]; rfl
    have hme : strStartsWith r "me-" = false := by
      unfold strStartsWith; rw [hdata]; rfl
    have haf : strStartsWith r "af-" = false := by
      unfold strStartsWith; rw [hdata]; rfl
    have hap : strStartsWith r "ap-" = false := by
      unfold strStartsWith; rw [hdata]; rfl
    simp [get_pricing_region, hr, hcn, heu, hme, haf, hap, h]
  · intro h
    simp only [Bool.or_eq_false_iff] at h
    obtain ⟨⟨⟨⟨⟨hcn, heu⟩, hme⟩, haf⟩, hap⟩, heusc⟩ := h
    simp [get_pricing_region, hr, hcn, heu, hme, haf, hap, heusc]
  · by_cases ha : aws = ""
    · simp [get_pricing_region, ha]
    · simp [get_pricing_region, ha]
  · simp [get_pricing_region]

/-- Concrete instantiation of the C10 theorem: `eu-west-1` is mapped to the
`eu-central-1` pricing region. -/
theorem get_pricing_region_spec_witness :
    get_pricing_region "us-east-1" (some "eu-west-1") = "eu-central-1" :=
  (get_pricing_region_spec "us-east-1" "eu-west-1" (by decide)).2.1 (by decide)

/-! ### C4: the paginator slices deterministically and emits the next
offset as token exactly when records remain -/

theorem getElem?_drop_nat {α : Type} (l : List α) (n i : Nat) : (l.drop n)[i]? = l[n + i]? := by
  induction l generalizing n with
  | nil => simp
  | cons a t ih =>
    cases n with
    | zero => simp
    | succ m =>
      rw [List.drop_succ_cons, Nat.succ_add, List.getElem?_cons_succ]
      exact ih m

theorem getElem?_take_nat {α : Type} (l : List α) (n i : Nat) :
    (l.take n)[i]? = if i < n then l[i]? else none := by
  induction l generalizing n i with
  | nil => simp
  | cons a t ih =>
    cases n with
    | zero => simp
    | succ m =>
      cases i with
      | zero => simp
      | succ j =>
        simp only [List.take_succ_cons, List.getElem?_cons_succ, ih, Nat.succ_lt_succ_iff]

/-- **C4.** (Modelled from the spec.) The paginator returns the slice
`records[offset : offset + max_results]` where the offset is the decoded
token (0 when absent) — elementwise, entry `i` of the page is entry
`offset + i` of the records when `i < max_results` and nothing otherwise —
and the response carries a next token equal to the decimal string of
`offset + max_results` exactly when `offset + max_results < len(records)`;
an offset at or past the end yields an empty page and no next token. -/
theorem paginate_spec {α : Type} (records : List α) (maxResults : Nat) (token : Option Nat) :
    (paginate records maxResults token).1 =
      (records.drop (token.getD 0)).take maxResults ∧
    (∀ i : Nat, (paginate records maxResults token).1[i]? =
        if i < maxResults then records[token.getD 0 + i]? else none) ∧
    (token.getD 0 + maxResults < records.length →
        (paginate records maxResults token).2 = some (toString (token.getD 0 + maxResults))) ∧
    (records.length ≤ token.getD 0 + maxResults →
        (paginate records maxResults token).2 = none) ∧
    (records.length ≤ token.getD 0 →
        (paginate records maxResults token).1 = [] ∧
        (paginate records maxResults token).2 = none) := by
  have h1 : (paginate records maxResults token).1 =
      (records.drop (token.getD 0)).take maxResults := by
    simp only [paginate]
    split <;> rfl
  have hnone : records.length ≤ token.getD 0 + maxResults →
      (paginate records maxResults token).2 = none := by
    intro h
    simp only [paginate]
    rw [if_neg (Nat.not_lt.mpr h)]
  refine ⟨h1, ?_, ?_, hnone, ?_⟩
  · intro i
    rw [h1, getElem?_take_nat, getElem?_drop_nat]
  · intro h
    simp only [paginate]
    rw [if_pos h]
  · intro h
    refine ⟨?_, hnone (Nat.le_trans h (Nat.le_add_right _ _))⟩
    rw [h1, List.drop_eq_nil_of_le h]
    exact List.take_nil

/-- Concrete instantiation of the C4 theorem: 60 records with page size 25
and token 25 yield next token `"50"`, and a token past the end yields an
empty page. -/
theorem paginate_spec_witness :
    (paginate (List.range 60) 25 (some 25)).2 = some "50" ∧
    (paginate (List.range 60) 25 (some 70)).1 = [] :=
  ⟨((paginate_spec (List.range 60) 25 (some 25)).2.2.1 (by decide)).trans (by decide),
   ((paginate_spec (List.range 60) 25 (some 70)).2.2.2.2 (by decide)).1⟩

/-! ### C5: the size guard accepts unconditionally at budget `-1` and
rejects over-budget pages with three sample records -/

theorem startsWithAux_nil_needle (l : List Char) : startsWithAux l [] = true := by
  cases l <;> rfl

theorem startsWithAux_self_append (p rest : List Char) :
    startsWithAux (p ++ rest) p = true := by
  induction p with
  | nil => exact startsWithAux_nil_needle rest
  | cons c cs ih => simp [startsWithAux, ih]

theorem containsSubAux_self_append (needle post : List Char) :
    containsSubAux needle (needle ++ post) = true := by
  cases needle with
  | nil =>
    cases post with
    | nil => rfl
    | cons c cs => rfl
  | cons n ns =>
    show (startsWithAux ((n :: ns) ++ post) (n :: ns) || containsSubAux (n :: ns) (ns ++ post))
        = true
    rw [startsWithAux_self_append]
    rfl

theorem containsSubAux_append_left (needle pre t : List Char)
    (h : containsSubAux needle t = true) : containsSubAux needle (pre ++ t) = true := by
  induction pre with
  | nil => exact h
  | cons c cs ih => simp [containsSubAux, ih]

theorem strContains_sizeMessage_actual (actual : Nat) (budget : Int) :
    strContains (formatWithCommas actual) (sizeMessage actual budget) = true := by
  unfold strContains sizeMessage
  simp only [String.data_append, List.append_assoc]
  exact containsSubAux_append_left _ _ _
    (containsSubAux_self_append (formatWithCommas actual).data _)

theorem strContains_sizeMessage_budget (actual : Nat) (budget : Int) :
    strContains (formatWithCommas budget.toNat) (sizeMessage actual budget) = true := by
  unfold strContains sizeMessage
  simp only [String.data_append, List.append_assoc]
  refine containsSubAux_append_left _ _ _ ?_
  refine containsSubAux_append_left _ _ _ ?_
  refine containsSubAux_append_left _ _ _ ?_
  exact containsSubAux_self_append (formatWithCommas budget.toNat).data _

/-- **C5.** (Modelled from the spec.) The size guard with budget `-1` always
accepts — in particular the pipeline core with `max_allowed_characters = -1`
never returns a `result_too_large` error; with any other budget, a
serialized page longer than the budget is rejected carrying the first 3
records of the page as samples (exactly 3 whenever at least 3 records are on
the page), a message stating the actual size and the limit with thousands
separators, and the response-shrinking suggestion; a page within budget is
accepted. -/
theorem checkResultSize_spec {α β : Type} (serialize : List α → String) (page : List α)
    (budget : Int) (serializeR : List (ProductRecord β) → String) (doc : RawDocument β)
    (filters : List PricingFilter) (maxResults : Nat) (token : Option Nat) :
    checkResultSize serialize page (-1) = .accept ∧
    (budget ≠ -1 → ((serialize page).length : Int) > budget →
        checkResultSize serialize page budget =
          .reject (page.take 3) (sizeMessage (serialize page).length budget) sizeSuggestion ∧
        (3 ≤ page.length → (page.take 3).length = 3) ∧
        strContains (formatWithCommas (serialize page).length)
          (sizeMessage (serialize page).length budget) = true ∧
        strContains (formatWithCommas budget.toNat)
          (sizeMessage (serialize page).length budget) = true) ∧
    (budget ≠ -1 → ((serialize page).length : Int) ≤ budget →
        checkResultSize serialize page budget = .accept) ∧
    (∀ (msg : String) (sample : List (ProductRecord β)),
        getPricingCore serializeR doc filters maxResults token (-1) ≠
          .error "result_too_large" msg sample) := by
  refine ⟨?_, ?_, ?_, ?_⟩
  · simp [checkResultSize]
  · intro hne hgt
    refine ⟨?_, ?_, strContains_sizeMessage_actual _ _, strContains_sizeMessage_budget _ _⟩
    · unfold checkResultSize
      rw [if_neg hne, if_pos hgt]
    · intro h3
      rw [List.length_take]
      exact Nat.min_eq_left h3
  · intro hne hle
    unfold checkResultSize
    rw [if_neg hne, if_neg (not_lt.mpr hle)]
  · intro msg sample
    unfold getPricingCore
    cases happ : applyFilters (joinProductsAndTerms doc) filters with
    | none => simp
    | some records =>
      cases records with
      | nil => simp
      | cons p rest => simp [checkResultSize]

/-- Concrete instantiation of the C5 theorem: a 5-character page against a
budget of 3 is rejected with exactly the first 3 records as samples. -/
theorem checkResultSize_spec_witness :
    checkResultSize (fun l => String.mk (l.map (fun _ => 'x'))) [0, 1, 2, 3, 4] 3 =
      .reject [0, 1, 2] (sizeMessage 5 3) sizeSuggestion :=
  (((checkResultSize_spec (fun l => String.mk (l.map (fun _ => 'x'))) [0, 1, 2, 3, 4] 3
      (fun _ => "") (⟨[], []⟩ : RawDocument Nat) [] 100 none).2.1
      (by decide) (by decide)).1).trans (by decide)

/-! ### C3: attribute-value discovery is all-or-nothing -/

theorem buildAttributeValues_find (records : List (List (String × String)))
    (valueFilters : List (String × (String → Bool))) (allNames : List String) :
    ∀ (names : List String) (n0 : String),
      names.find? (fun n => (filteredAttributeValues records valueFilters n).isEmpty)
        = some n0 →
      buildAttributeValues records valueFilters allNames names =
        .error "no_attribute_values_found" n0 allNames
  | [], n0, h => by simp at h
  | n :: rest, n0, h => by
    cases hpa : (filteredAttributeValues records valueFilters n).isEmpty with
    | true =>
      rw [List.find?_cons_of_pos
        (p := fun x => (filteredAttributeValues records valueFilters x).isEmpty) rest hpa] at h
      obtain rfl : n = n0 := by simpa using h
      simp [buildAttributeValues, hpa]
    | false =>
      rw [List.find?_cons_of_neg
        (p := fun x => (filteredAttributeValues records valueFilters x).isEmpty) rest
        (by simp [hpa])] at h
      have ih := buildAttributeValues_find records valueFilters allNames rest n0 h
      simp [buildAttributeValues, hpa, ih]

theorem buildAttributeValues_ok (records : List (List (String × String)))
    (valueFilters : List (String × (String → Bool))) (allNames : List String) :
    ∀ (names : List String) (m : List (String × List String)),
      buildAttributeValues records valueFilters allNames names = .ok m →
      m.map Prod.fst = names ∧ ∀ p ∈ m, p.2 ≠ []
  | [], m, h => by
    have h' : AttrValuesResult.ok ([] : List (String × List String)) = .ok m := h
    obtain rfl : ([] : List (String × List String)) = m := by simpa using h'
    exact ⟨rfl, by simp⟩
  | n :: rest, m, h => by
    cases hpa : (filteredAttributeValues records valueFilters n).isEmpty with
    | true => simp [buildAttributeValues, hpa] at h
    | false =>
      cases hrec : buildAttributeValues records valueFilters allNames rest with
      | ok m' =>
        have ih := buildAttributeValues_ok records valueFilters allNames rest m' hrec
        simp only [buildAttributeValues, hpa, Bool.false_eq_true, if_false, hrec] at h
        obtain rfl : (n, filteredAttributeValues records valueFilters n) :: m' = m := by
          simpa using h
        refine ⟨by simp [ih.1], ?_⟩
        intro p hp
        rcases List.mem_cons.mp hp with rfl | hmem
        · intro hnil
          have hnil' : filteredAttributeValues records valueFilters n = [] := hnil
          rw [hnil'] at hpa
          simp at hpa
        · exact ih.2 p hmem
      | error et fa ra =>
        simp [buildAttributeValues, hpa, hrec] at h

/-- **C3.** (Modelled from the spec.) Attribute-value discovery is
all-or-nothing: whenever some requested attribute ends up with an empty
value list after filtering (or never appears in the data), the whole call
returns an error of type `no_attribute_values_found` naming the first such
attribute, in request order, and echoing the full requested attribute list;
a successful call maps every requested attribute, each to a non-empty value
list — never a partial map of only the successful attributes. -/
theorem get_pricing_attribute_values_spec (records : List (List (String × String)))
    (valueFilters : List (String × (String → Bool))) (names : List String) :
    (∀ n0 : String,
        names.find? (fun n => (filteredAttributeValues records valueFilters n).isEmpty)
          = some n0 →
        get_pricing_attribute_values records valueFilters names =
          .error "no_attribute_values_found" n0 names) ∧
    (∀ m, get_pricing_attribute_values records valueFilters names = .ok m →
        m.map Prod.fst = names ∧ ∀ p ∈ m, p.2 ≠ []) ∧
    (names = [] → get_pricing_attribute_values records valueFilters names =
        .error "empty_attribute_list" "" []) := by
  refine ⟨?_, ?_, ?_⟩
  · intro n0 h
    cases names with
    | nil => simp at h
    | cons n rest =>
      simpa [get_pricing_attribute_values] using
        buildAttributeValues_find records valueFilters (n :: rest) (n :: rest) n0 h
  · intro m h
    cases names with
    | nil => simp [get_pricing_attribute_values] at h
    | cons n rest =>
      simp only [get_pricing_attribute_values, List.isEmpty_cons, if_false] at h
      exact buildAttributeValues_ok records valueFilters (n :: rest) (n :: rest) m h
  · intro h
    subst h
    rfl

/-- Concrete instantiation of the C3 theorem: requesting an attribute with
values together with one that never appears fails the whole call, naming the
failing attribute and echoing the full requested list. -/
theorem get_pricing_attribute_values_spec_witness :
    get_pricing_attribute_values [[("instanceType", "t2.micro")]] []
        ["instanceType", "invalidAttribute"] =
      .error "no_attribute_values_found" "invalidAttribute"
        ["instanceType", "invalidAttribute"] :=
  (get_pricing_attribute_values_spec [[("instanceType", "t2.micro")]] []
      ["instanceType", "invalidAttribute"]).1 "invalidAttribute" (by decide)

/-! ### C6: free-product detection fails closed -/

theorem Decimal.toRat_eq_zero_iff (d : Decimal) : d.toRat = 0 ↔ d.mantissa = 0 := by
  unfold Decimal.toRat
  rw [div_eq_zero_iff]
  constructor
  · rintro (h | h)
    · exact_mod_cast h
    · exfalso
      have hne : ((10 ^ d.scale : Nat) : Rat) ≠ 0 := by
        exact_mod_cast pow_ne_zero d.scale (by norm_num)
      exact hne h
  · intro h
    exact Or.inl (by exact_mod_cast h)

theorem priceIsZero_iff (s : String) :
    priceIsZero s = true ↔ ∃ d : Decimal, parsePrice s = some d ∧ d.toRat = 0 := by
  unfold priceIsZero
  cases h : parsePrice s with
  | none => simp
  | some d =>
    simp only [decide_eq_true_eq, Option.some.injEq]
    constructor
    · intro hm
      exact ⟨d, rfl, (Decimal.toRat_eq_zero_iff d).mpr hm⟩
    · rintro ⟨d', hd', hz⟩
      cases hd'
      exact (Decimal.toRat_eq_zero_iff _).mp hz

theorem is_free_product_all_iff (terms : List (String × List (String × TermData))) :
    _is_free_product terms = true ↔
      ∀ cp ∈ onDemandPrices terms, priceIsZero cp.2 = true := by
  unfold _is_free_product onDemandPrices
  cases h : terms.lookup "OnDemand" with
  | none => simp
  | some onDemand =>
    simp only [List.all_eq_true, List.mem_flatMap]
    constructor
    · rintro hall cp ⟨t, ht, d, hd, hcp⟩
      exact hall t ht d hd cp hcp
    · intro hall t ht d hd cp hcp
      exact hall cp ⟨t, ht, d, hd, hcp⟩

/-- **C6.** (Modelled from the spec.) `_is_free_product` returns true exactly
when every currency entry in the `pricePerUnit` maps of the record's
`OnDemand` term's price dimensions parses to a numeric price that is exactly
zero; an unparsable price string makes the product non-free (fails closed),
and a currency with a nonzero price makes it non-free even when all other
currencies are zero. -/
theorem isFreeProduct_spec (terms : List (String × List (String × TermData))) :
    (_is_free_product terms = true ↔
      ∀ cp ∈ onDemandPrices terms,
        ∃ d : Decimal, parsePrice cp.2 = some d ∧ d.toRat = 0) ∧
    (∀ cp ∈ onDemandPrices terms, parsePrice cp.2 = none →
        _is_free_product terms = false) ∧
    (∀ cp ∈ onDemandPrices terms, ∀ d : Decimal, parsePrice cp.2 = some d → d.toRat ≠ 0 →
        _is_free_product terms = false) := by
  have hiff : _is_free_product terms = true ↔
      ∀ cp ∈ onDemandPrices terms,
        ∃ d : Decimal, parsePrice cp.2 = some d ∧ d.toRat = 0 := by
    rw [is_free_product_all_iff]
    constructor
    · intro h cp hcp
      exact (priceIsZero_iff cp.2).mp (h cp hcp)
    · intro h cp hcp
      exact (priceIsZero_iff cp.2).mpr (h cp hcp)
  refine ⟨hiff, ?_, ?_⟩
  · intro cp hcp hparse
    cases hfree : _is_free_product terms with
    | false => rfl
    | true =>
      obtain ⟨d, hd, _⟩ := (hiff.mp hfree) cp hcp
      rw [hparse] at hd
      exact Option.noConfusion hd
  · intro cp hcp d hd hnz
    cases hfree : _is_free_product terms with
    | false => rfl
    | true =>
      obtain ⟨d', hd', hz⟩ := (hiff.mp hfree) cp hcp
      rw [hd] at hd'
      obtain rfl : d = d' := by simpa using hd'
      exact absurd hz hnz

/-- Concrete instantiation of the C6 theorem: an unparsable `"N/A"` price
makes the product non-free. -/
theorem isFreeProduct_spec_witness :
    _is_free_product [("OnDemand", [("T", ⟨[("D", ⟨[("CNY", "N/A")]⟩)]⟩)])] = false :=
  (isFreeProduct_spec [("OnDemand", [("T", ⟨[("D", ⟨[("CNY", "N/A")]⟩)]⟩)])]).2.1
    ("CNY", "N/A") (by decide) (by decide)

end AwsPricing
